import Mathlib

/-!
Verification of the git-pages-cli client core (main.go) against its design
specification.  The development shallow-embeds the archive encoder
(`archiveFS`), the content addresser (`gitBlobSHA256`), the whiteout encoder
(`makeWhiteout`), and the negotiation loop of `main` as executable Lean
definitions, and proves the specified properties about them.

Modelling conventions:
* machine bytes are `Nat` values below 256, byte strings are `List Nat`;
* Lean `String` stands for Go `string`; byte views of strings assume ASCII
  content (`strBytes`), which is exact for every string litigated here;
* the tar and zstd container layers are Go standard-library code, so the
  archive stream is modelled at the entry level (`TarEntry`), except for the
  whiteout encoder whose raw 512-byte header block is modelled byte-exactly;
* fallible Go code (`error` returns) becomes `Except String`.
-/

/-! ## Bytes and SHA-256 (crypto/sha256), modelled bit-exactly over Nat -/

abbrev Bytes := List Nat

def w32 : Nat := 4294967296

def rotr32 (k n : Nat) : Nat := ((n >>> k) ||| (n <<< (32 - k))) % w32

def ch32 (e f g : Nat) : Nat := (e &&& f) ^^^ ((e ^^^ (w32 - 1)) &&& g)

def maj32 (a b c : Nat) : Nat := Nat.xor (Nat.xor (Nat.land a b) (Nat.land a c)) (Nat.land b c)

def bsig0 (x : Nat) : Nat := rotr32 2 x ^^^ rotr32 13 x ^^^ rotr32 22 x

def bsig1 (x : Nat) : Nat := rotr32 6 x ^^^ rotr32 11 x ^^^ rotr32 25 x

def ssig0 (x : Nat) : Nat := rotr32 7 x ^^^ rotr32 18 x ^^^ (x >>> 3)

def ssig1 (x : Nat) : Nat := rotr32 17 x ^^^ rotr32 19 x ^^^ (x >>> 10)

def be32 (n : Nat) : Bytes := [n >>> 24 % 256, n >>> 16 % 256, n >>> 8 % 256, n % 256]

def be64 (n : Nat) : Bytes := be32 (n >>> 32) ++ be32 (n % w32)

def sha256Pad (msg : Bytes) : Bytes :=
  msg ++ 128 :: List.replicate ((64 - (msg.length + 9) % 64) % 64) 0 ++ be64 (8 * msg.length)

def wordsOf : Bytes → List Nat
  | b0 :: b1 :: b2 :: b3 :: rest => (((b0 * 256 + b1) * 256 + b2) * 256 + b3) :: wordsOf rest
  | _ => []

def toBlocks (bs : Bytes) : List Bytes :=
  if h : bs = [] then []
  else
    have : (bs.drop 64).length < bs.length := by
      rw [List.length_drop]
      have hp : 0 < bs.length := List.length_pos.mpr h
      omega
    bs.take 64 :: toBlocks (bs.drop 64)
termination_by bs.length

def wStep (rev : List Nat) : List Nat :=
  ((ssig1 (rev.getD 1 0) + rev.getD 6 0 + ssig0 (rev.getD 14 0) + rev.getD 15 0) % w32) :: rev

def wExtend : Nat → List Nat → List Nat
  | 0, rev => rev
  | k + 1, rev => wExtend k (wStep rev)

def sha256Schedule (ws : List Nat) : List Nat := (wExtend 48 ws.reverse).reverse

/-- The 64 round constants of FIPS 180-4, in decimal. -/
def sha256K : List Nat :=
  [1116352408, 1899447441, 3049323471, 3921009573, 961987163, 1508970993,
   2453635748, 2870763221, 3624381080, 310598401, 607225278, 1426881987,
   1925078388, 2162078206, 2614888103, 3248222580, 3835390401, 4022224774,
   264347078, 604807628, 770255983, 1249150122, 1555081692, 1996064986,
   2554220882, 2821834349, 2952996808, 3210313671, 3336571891, 3584528711,
   113926993, 338241895, 666307205, 773529912, 1294757372, 1396182291,
   1695183700, 1986661051, 2177026350, 2456956037, 2730485921, 2820302411,
   3259730800, 3345764771, 3516065817, 3600352804, 4094571909, 275423344,
   430227734, 506948616, 659060556, 883997877, 958139571, 1322822218,
   1537002063, 1747873779, 1955562222, 2024104815, 2227730452, 2361852424,
   2428436474, 2756734187, 3204031479, 3329325298]

structure Sha256State where
  a : Nat
  b : Nat
  c : Nat
  d : Nat
  e : Nat
  f : Nat
  g : Nat
  h : Nat
  deriving Repr, DecidableEq

def sha256Round (st : Sha256State) (kw : Nat × Nat) : Sha256State :=
  let t1 := (st.h + bsig1 st.e + ch32 st.e st.f st.g + kw.1 + kw.2) % w32
  let t2 := (bsig0 st.a + maj32 st.a st.b st.c) % w32
  ⟨(t1 + t2) % w32, st.a, st.b, st.c, (st.d + t1) % w32, st.e, st.f, st.g⟩

def sha256Compress (st : Sha256State) (block : Bytes) : Sha256State :=
  let ws := sha256Schedule (wordsOf block)
  let fin := (List.zip sha256K ws).foldl sha256Round st
  ⟨(st.a + fin.a) % w32, (st.b + fin.b) % w32, (st.c + fin.c) % w32, (st.d + fin.d) % w32,
   (st.e + fin.e) % w32, (st.f + fin.f) % w32, (st.g + fin.g) % w32, (st.h + fin.h) % w32⟩

/-- The initial hash value of FIPS 180-4, in decimal. -/
def sha256Init : Sha256State :=
  ⟨1779033703, 3144134277, 1013904242, 2773480762, 1359893119, 2600822924, 528734635, 1541459225⟩

def sha256 (msg : Bytes) : Bytes :=
  let fin := (toBlocks (sha256Pad msg)).foldl sha256Compress sha256Init
  be32 fin.a ++ be32 fin.b ++ be32 fin.c ++ be32 fin.d ++
    be32 fin.e ++ be32 fin.f ++ be32 fin.g ++ be32 fin.h

/-! ## Lowercase hex encoding (encoding/hex) -/

def hextable : List Char := "0123456789abcdef".toList

def hexNibble (n : Nat) : Char := hextable.getD n '0'

def hexEncode (bs : Bytes) : String :=
  String.mk (bs.flatMap fun b => [hexNibble (b / 16), hexNibble (b % 16)])

/-- ASCII byte view of a Lean string, matching Go's byte view for ASCII data. -/
def strBytes (s : String) : Bytes := s.toList.map Char.toNat

/-! ## Content addresser: gitBlobSHA256 (main.go) -/

/-- strconv.FormatInt(n, 10). -/
def formatInt (n : Int) : String :=
  if n < 0 then "-" ++ Nat.repr n.natAbs else Nat.repr n.natAbs

/-- Streaming hash state: crypto/sha256 digests exactly the concatenation of written chunks. -/
def hashWrite (st data : Bytes) : Bytes := st ++ data

/--
gitBlobSHA256 from main.go:
  h := crypto.SHA256.New(); h.Write("blob "); h.Write(FormatInt(len(data), 10));
  h.Write({0}); h.Write(data); hex.EncodeToString(h.Sum(nil)).
-/
def gitBlobSHA256 (data : Bytes) : String :=
  hexEncode (sha256 (hashWrite (hashWrite (hashWrite (hashWrite []
    (strBytes "blob ")) (strBytes (formatInt (data.length : Int)))) [0]) data))

/-- Modelled from the spec's words (§6): lowercase hex SHA-256 over
"blob " + decimal(length) + NUL + content; compared with the source definition. -/
def specBlobHash (b : Bytes) : String :=
  hexEncode (sha256 (strBytes "blob " ++ strBytes (Nat.repr b.length) ++ [0] ++ b))

/-! ## Archive model: tar entries, walked filesystem entries -/

/-- Tar type flags used by the client: TypeReg '0', TypeSymlink '2', TypeChar '3', TypeDir '5'. -/
inductive TarType where
  | reg
  | symlink
  | char
  | dir
  deriving Repr, DecidableEq

structure TarHeader where
  typeflag : TarType
  name : String
  linkname : String
  size : Nat
  deriving Repr, DecidableEq

structure TarEntry where
  header : TarHeader
  data : Bytes
  deriving Repr, DecidableEq

/-- Kind of a filesystem object as classified by entry.Type() in archiveFS. -/
inductive FSKind where
  | regular
  | dir
  | symlink
  /-- device files, sockets, FIFOs: anything hitting archiveFS's default case -/
  | other
  deriving Repr, DecidableEq

/--
One callback invocation of fs.WalkDir inside archiveFS: the relative slash
path (the root is "."), the object kind, and the results that fs.ReadFile
resp. fs.ReadLink would deliver for it.
-/
structure WalkEntry where
  name : String
  kind : FSKind
  content : Except String Bytes
  linkTarget : Except String String
  deriving Repr

/-- A walk step: either a visited entry, or a walk error passed to the callback. -/
inductive WalkItem where
  | entry (e : WalkEntry)
  | failure (msg : String)
  deriving Repr

def incrementalSizeThreshold : Nat := 256

/--
The per-entry body of archiveFS's fs.WalkDir callback (main.go): computes the
header name from the path prefix, dispatches on the entry type, applies the
incremental elision rule to regular files, and returns the tar entry to write
(none when the synthetic root is skipped).
-/
def encodeEntry (inc : Bool) (requestedSet : List String) (pfx : String) (e : WalkEntry) :
    Except String (Option TarEntry) :=
  if pfx = "" ∧ e.name = "." then .ok none
  else
    let name0 := if e.name = "." then pfx else pfx ++ e.name
    match e.kind with
    | .dir => .ok (some ⟨⟨.dir, name0 ++ "/", "", 0⟩, []⟩)
    | .regular =>
      match e.content with
      | .error msg => .error msg
      | .ok data =>
        if inc && decide (data.length > incrementalSizeThreshold) then
          let hash := gitBlobSHA256 data
          if requestedSet.contains hash then
            .ok (some ⟨⟨.reg, name0, "", data.length⟩, data⟩)
          else
            .ok (some ⟨⟨.symlink, name0, "/git/blobs/" ++ hash, 0⟩, []⟩)
        else
          .ok (some ⟨⟨.reg, name0, "", data.length⟩, data⟩)
    | .symlink =>
      match e.linkTarget with
      | .error msg => .error msg
      | .ok target => .ok (some ⟨⟨.symlink, name0, target, 0⟩, []⟩)
    | .other => .error "tar: cannot add non-regular file"

/--
archiveFS's walk over a sequence of walk steps: the first error aborts the
walk and becomes archiveFS's error; otherwise the written tar entries are
collected in walk order.
-/
def archiveEntries (inc : Bool) (requestedSet : List String) (pfx : String) :
    List WalkItem → Except String (List TarEntry)
  | [] => .ok []
  | .failure msg :: _ => .error msg
  | .entry e :: rest =>
    match encodeEntry inc requestedSet pfx e with
    | .error msg => .error msg
    | .ok oe =>
      match archiveEntries inc requestedSet pfx rest with
      | .error msg => .error msg
      | .ok ts =>
        match oe with
        | none => .ok ts
        | some t => .ok (t :: ts)

/-! ## Directory trees and the deterministic walk -/

mutual
/-- A finite directory tree containing only regular files, directories and symlinks. -/
inductive FSNode where
  | file (content : Bytes) : FSNode
  | symlink (target : String) : FSNode
  | dir (entries : FSEntries) : FSNode
inductive FSEntries where
  | nil : FSEntries
  | cons (name : String) (node : FSNode) (rest : FSEntries) : FSEntries
end

/-- Path of a child within a parent directory, as fs.WalkDir forms it. -/
def childPath (parent name : String) : String :=
  if parent = "." then name else parent ++ "/" ++ name

mutual
/-- fs.WalkDir visit order: a node is visited before its children, children in list order. -/
def walkNode (path : String) : FSNode → List WalkItem
  | .file c => [.entry ⟨path, .regular, .ok c, .ok ""⟩]
  | .symlink t => [.entry ⟨path, .symlink, .ok [], .ok t⟩]
  | .dir es => .entry ⟨path, .dir, .ok [], .ok ""⟩ :: walkEntries path es
def walkEntries (path : String) : FSEntries → List WalkItem
  | .nil => []
  | .cons n t rest => walkNode (childPath path n) t ++ walkEntries path rest
end

mutual
/-- Well-formed tree: no directory entry is named ".", as on a real filesystem. -/
def wfNode : FSNode → Bool
  | .file _ => true
  | .symlink _ => true
  | .dir es => wfEntries es
def wfEntries : FSEntries → Bool
  | .nil => true
  | .cons n t rest => (!(n == ".")) && wfNode t && wfEntries rest
end

/-- archiveFS(writer, root, prefix, needBlobs) at the tar-entry level; the
incremental flag is the *incrementalFlag global read inside archiveFS. -/
def archiveFS (inc : Bool) (root : FSNode) (pfx : String) (needBlobs : List String) :
    Except String (List TarEntry) :=
  archiveEntries inc needBlobs pfx (walkNode "." root)

/-- What the consumer of the pipe created by streamArchiveFS observes. -/
inductive StreamResult where
  | complete (entries : List TarEntry)
  | terminalError (msg : String)
  deriving Repr, DecidableEq

/--
streamArchiveFS (main.go) over an arbitrary walked filesystem: archiveFS runs
into a pipe; on error the pipe is closed with that error, which the consumer
observes as the stream's terminal error; otherwise it is closed cleanly after
all entries.
-/
def streamArchive (inc : Bool) (needBlobs : List String) (pfx : String)
    (items : List WalkItem) : StreamResult :=
  match archiveEntries inc needBlobs pfx items with
  | .error msg => .terminalError msg
  | .ok ts => .complete ts

/-- streamArchiveFS applied to the walk of a directory tree. -/
def streamArchiveFS (inc : Bool) (root : FSNode) (pfx : String) (needBlobs : List String) :
    StreamResult :=
  streamArchive inc needBlobs pfx (walkNode "." root)

/-! ## Decoding an archive back into tree contents -/

inductive DecodedEntry where
  | dfile (name : String) (content : Bytes)
  | ddir (name : String)
  | dsymlink (name : String) (target : String)
  | dwhiteout (name : String)
  deriving Repr, DecidableEq

/-- Drop a trailing slash from a directory entry name. -/
def stripSlash (s : String) : String :=
  if s.data.getLast? = some '/' then String.mk s.data.dropLast else s

/-- Reading one tar entry back: file bytes, directory name, or symlink target. -/
def decodeTarEntry (t : TarEntry) : DecodedEntry :=
  match t.header.typeflag with
  | .reg => .dfile t.header.name t.data
  | .dir => .ddir (stripSlash t.header.name)
  | .symlink => .dsymlink t.header.name t.header.linkname
  | .char => .dwhiteout t.header.name

mutual
/-- The canonical contents of a tree: every file with its exact bytes, every
directory, every symlink with its target, at their walk paths, in walk order. -/
def listingNode (path : String) : FSNode → List DecodedEntry
  | .file c => [.dfile path c]
  | .symlink t => [.dsymlink path t]
  | .dir es => .ddir path :: listingEntries path es
def listingEntries (path : String) : FSEntries → List DecodedEntry
  | .nil => []
  | .cons n t rest => listingNode (childPath path n) t ++ listingEntries path rest
end

/-! ## Negotiation loop (main.go request cycle) -/

/-- bufio.ScanLines: drop a final carriage return from a line. -/
def dropCR (s : String) : String :=
  match s.data.getLast? with
  | some '\r' => String.mk s.data.dropLast
  | _ => s

/--
The bufio.Scanner loop in main that reads needBlobs: one token per line,
line terminators stripped, a final unterminated line still delivered, and no
empty token after a trailing newline.
-/
def scanLines (s : String) : List String :=
  let parts := s.splitOn "\n"
  (if parts.getLast? = some "" then parts.dropLast else parts).map dropCR

inductive RequestBody where
  | empty
  | bytes (bs : Bytes)
  | stream (result : StreamResult)
  deriving Repr, DecidableEq

structure ClientRequest where
  method : String
  url : String
  headers : List (String × String)
  body : RequestBody
  deriving Repr, DecidableEq

structure HTTPResponse where
  status : Nat
  contentType : String
  updateResult : String
  body : String
  deriving Repr, DecidableEq

def unresolvedContentType : String := "application/vnd.git-pages.unresolved"

inductive StepResult where
  | resubmit (req : ClientRequest)
  | accepted (updateResult : String) (respBody : String)
  | rejected (respBody : String)
  /-- nil-pointer dereference of the upload directory handle: the process panics -/
  | crashed
  deriving Repr, DecidableEq

/--
One round of the response handling in main's update loop: 422 with the
unresolved content type rebuilds the body from a fresh walk with the scanned
hash list and resubmits the same request; 200 succeeds, surfacing the
Update-Result header and the body; anything else fails with the body as
diagnostic.  `uploadDir` is the *os.Root opened only by the --upload-dir
branch (`none` models the nil pointer left by every other operation, whose
dereference in the resubmission branch is a crash).
-/
def negotiationStep (uploadDir : Option FSNode) (inc : Bool) (pfx : String)
    (req : ClientRequest) (resp : HTTPResponse) : StepResult :=
  if resp.status = 422 ∧ resp.contentType = unresolvedContentType then
    let needBlobs := scanLines resp.body
    match uploadDir with
    | none => .crashed
    | some tree =>
      .resubmit { req with body := .stream (streamArchiveFS inc tree pfx needBlobs) }
  else if resp.status = 200 then
    .accepted resp.updateResult resp.body
  else
    .rejected resp.body

def isResubmit : StepResult → Bool
  | .resubmit _ => true
  | _ => false

inductive LoopOutcome where
  | accepted (updateResult : String) (respBody : String)
  | rejected (respBody : String)
  | crashed
  /-- the scripted responses ran out with the loop still going, holding this request -/
  | pending (req : ClientRequest)
  deriving Repr, DecidableEq

/-- The `for` loop of main driven by a script of server responses. -/
def negotiationLoop (uploadDir : Option FSNode) (inc : Bool) (pfx : String) :
    ClientRequest → List HTTPResponse → LoopOutcome
  | req, [] => .pending req
  | req, r :: rs =>
    match negotiationStep uploadDir inc pfx req r with
    | .resubmit req2 => negotiationLoop uploadDir inc pfx req2 rs
    | .accepted u b => .accepted u b
    | .rejected b => .rejected b
    | .crashed => .crashed

/-- The single operation selected by the command-line flags. -/
inductive Operation where
  | challenge
  | uploadGit (repoURL : String)
  | uploadDir (tree : FSNode)
  | deleteWhole
  | deletePath (path : String)
  | debugManifest

/-- main declares `var uploadDir *os.Root` and assigns it only in the
--upload-dir branch; every other operation leaves it nil. -/
def openedUploadDir : Operation → Option FSNode
  | .uploadDir tree => some tree
  | _ => none

/-! ## Path normalization and the whiteout encoder -/

/-- strings.Trim(s, "/"): remove leading and trailing slash runs. -/
def trimSlashes (s : String) : String :=
  String.mk (((s.data.dropWhile (· = '/')).reverse.dropWhile (· = '/')).reverse)

/-- pathPrefix as computed in main for a non-empty --path flag. -/
def pathPrefixOf (pathFlag : String) : String := trimSlashes pathFlag ++ "/"

/-- makeWhiteout (main.go) at the entry level: a tar writer into a fresh
buffer, one WriteHeader with Typeflag TypeChar and Name path, then Flush —
exactly one entry, no compression layer. -/
def makeWhiteout (path : String) : List TarEntry := [⟨⟨.char, path, "", 0⟩, []⟩]

/-! ## The raw tar header block written by makeWhiteout -/

/-- archive/tar formatString: copy the bytes into a field of width w, NUL-padding. -/
def fieldString (w : Nat) (bs : Bytes) : Bytes := bs.take w ++ List.replicate (w - bs.length) 0

/-- archive/tar formatOctal: octal digits zero-padded to width w - 1, then a NUL. -/
def fieldOctal (w : Nat) (n : Nat) : Bytes :=
  let s := (Nat.toDigits 8 n).map Char.toNat
  let s := if s.length < w then List.replicate (w - 1 - s.length) 48 ++ s else s
  fieldString w s

def spaces8 : Bytes := List.replicate 8 32

/-- The header checksum: byte sum of the block with the checksum field read
as eight spaces. -/
def tarChecksum (pre post : Bytes) : Nat := (pre ++ spaces8 ++ post).sum

/--
The 512-byte USTAR header block archive/tar's Writer emits for a header with
the given type flag byte, name, link name and size and all other fields zero
(the zero ModTime is formatted as Unix epoch 0); the checksum is written as
six octal digits, a NUL and a space.
-/
def tarHeaderBlock (typeflag : Nat) (name linkname : String) (size : Nat) : Bytes :=
  let pre := fieldString 100 (strBytes name) ++ fieldOctal 8 0 ++ fieldOctal 8 0 ++
    fieldOctal 8 0 ++ fieldOctal 12 size ++ fieldOctal 12 0
  let post := typeflag :: (fieldString 100 (strBytes linkname) ++
    (strBytes "ustar" ++ [0]) ++ strBytes "00" ++ fieldString 32 [] ++ fieldString 32 [] ++
    fieldOctal 8 0 ++ fieldOctal 8 0 ++ fieldString 155 [] ++ List.replicate 12 0)
  pre ++ (fieldOctal 7 (tarChecksum pre post) ++ [32]) ++ post

/-- The end-of-archive marker a Close would append: two 512-byte zero blocks. -/
def tarTrailer : Bytes := List.replicate 1024 0

/--
makeWhiteout (main.go) at the byte level: WriteHeader writes the one header
block ('3' = 51 is tar.TypeChar, size 0); Flush only pads the current file
body (empty here) and Close is never called, so no end-of-archive trailer is
written and the buffer holds exactly the single header block.
-/
def makeWhiteoutBuffer (path : String) : Bytes := tarHeaderBlock 51 path "" 0

/-- The fields of the whiteout header block before the checksum field:
name, mode, uid, gid, size (zero), mtime. -/
def whiteoutPre (p : String) : Bytes :=
  fieldString 100 (strBytes p) ++ fieldOctal 8 0 ++ fieldOctal 8 0 ++
    fieldOctal 8 0 ++ fieldOctal 12 0 ++ fieldOctal 12 0

/-- The fields of the whiteout header block after the checksum field:
typeflag '3' (51), link name, magic, version, user and group names, device
numbers, prefix and padding. -/
def whiteoutPost : Bytes :=
  51 :: (fieldString 100 (strBytes "") ++
    (strBytes "ustar" ++ [0]) ++ strBytes "00" ++ fieldString 32 [] ++ fieldString 32 [] ++
    fieldOctal 8 0 ++ fieldOctal 8 0 ++ fieldString 155 [] ++ List.replicate 12 0)

/-! ## Concrete inputs used by witnesses and counterexamples -/

def demoBytes : Bytes := List.replicate 300 7

def demoEntry : WalkEntry := ⟨"big.bin", .regular, .ok demoBytes, .ok ""⟩

def deviceEntry : WalkEntry := ⟨"dev0", .other, .ok [], .ok ""⟩

def unreadableEntry : WalkEntry := ⟨"locked.txt", .regular, .error "permission denied", .ok ""⟩

def demoTree : FSEntries :=
  .cons "blog" (.dir (.cons "link" (.symlink "../index.html") .nil))
    (.cons "index.html" (.file [104, 105]) .nil)

def demoRoot : FSNode := .dir demoTree

def demoReq : ClientRequest :=
  ⟨"PATCH", "https://example.org/", [("Content-Type", "application/x-tar+zstd")], .empty⟩

def demo422 : HTTPResponse := ⟨422, "application/vnd.git-pages.unresolved", "", "aaaa\nbbbb\n"⟩

def demoOK : HTTPResponse := ⟨200, "text/plain", "updated", "done"⟩

/-! # Theorems -/

/-! ## Helper lemmas -/

theorem str_empty_append (s : String) : "" ++ s = s := by
  cases s with
  | mk l => show String.mk ([] ++ l) = String.mk l; rw [List.nil_append]

theorem str_append_empty (s : String) : s ++ "" = s := by
  cases s with
  | mk l => show String.mk (l ++ []) = String.mk l; rw [List.append_nil]

theorem hexNibble_mem (n : Nat) : hexNibble n ∈ hextable := by
  unfold hexNibble
  by_cases h : n < 16
  · interval_cases n <;> decide
  · have hlen : hextable.length ≤ n := by simp [hextable]; omega
    rw [List.getD_eq_default _ _ hlen]
    decide

/-! ## Claim C2: the content hash -/

/--
Claim C2: for every byte sequence b (including the empty sequence),
gitBlobSHA256 returns the lowercase hexadecimal SHA-256 digest of
"blob " ++ decimal ASCII length of b ++ NUL ++ b.  It agrees with the
definition transcribed from the spec's words, the streamed writes digest the
stated concatenation, every output character is a lowercase hex digit, and
the result is a function of b alone (the definition takes only b), hence
deterministic and independent of file name, path and mode.
-/
theorem gitBlobSHA256_is_spec_hash (b : Bytes) :
    gitBlobSHA256 b = specBlobHash b ∧
    gitBlobSHA256 b =
      hexEncode (sha256 (strBytes "blob " ++ strBytes (Nat.repr b.length) ++ [0] ++ b)) ∧
    ∀ c ∈ (gitBlobSHA256 b).toList, c ∈ hextable := by
  have hfmt : formatInt (b.length : Int) = Nat.repr b.length := by
    unfold formatInt
    rw [if_neg (by omega)]
    simp
  have heq : gitBlobSHA256 b =
      hexEncode (sha256 (strBytes "blob " ++ strBytes (Nat.repr b.length) ++ [0] ++ b)) := by
    unfold gitBlobSHA256 hashWrite
    rw [hfmt, List.nil_append, List.append_assoc, List.append_assoc]
  refine ⟨?_, heq, ?_⟩
  · rw [heq]; rfl
  · intro c hc
    rw [heq] at hc
    unfold hexEncode at hc
    simp only [String.toList, String.mk] at hc
    rcases List.mem_flatMap.mp hc with ⟨x, _, hx⟩
    simp only [List.mem_cons, List.not_mem_nil, or_false] at hx
    rcases hx with h | h <;> exact h ▸ hexNibble_mem _

/-- Witness for C2 at b = [104, 105]. -/
theorem gitBlobSHA256_is_spec_hash_witness :
    gitBlobSHA256 [104, 105] = specBlobHash [104, 105] ∧
    gitBlobSHA256 [104, 105] =
      hexEncode (sha256 (strBytes "blob " ++ strBytes (Nat.repr ([104, 105] : Bytes).length) ++ [0] ++ [104, 105])) ∧
    ∀ c ∈ (gitBlobSHA256 [104, 105]).toList, c ∈ hextable :=
  gitBlobSHA256_is_spec_hash [104, 105]

/-! ## Claim C7: the whiteout encoder at the entry level -/

/--
Claim C7: for every path, the whiteout encoder produces an archive containing
exactly one entry whose type tag is the Whiteout marker tar.TypeChar — a
non-file type distinct from regular, directory and symlink — named by the
normalized path with a trailing slash; in particular the path-scoped delete of
"blog/old-post" yields exactly one entry named "blog/old-post/".
-/
theorem makeWhiteout_single_whiteout_entry (p : String) :
    makeWhiteout (pathPrefixOf p) = [⟨⟨.char, trimSlashes p ++ "/", "", 0⟩, []⟩] ∧
    (TarType.char ≠ .reg ∧ TarType.char ≠ .dir ∧ TarType.char ≠ .symlink) ∧
    makeWhiteout (pathPrefixOf "blog/old-post") =
      [⟨⟨.char, "blog/old-post/", "", 0⟩, []⟩] :=
  ⟨rfl, by decide, by decide⟩

/-! ## Claim C10: renegotiation without an upload directory crashes -/

/--
Claim C10: a 422 response with the unresolved content type received for an
operation that did not open an upload directory (only --upload-dir assigns
the uploadDir handle; --upload-git and --delete leave it nil) drives the
resubmission branch into a nil dereference and the client crashes, while
operations that did open an upload directory never reach the crash.
-/
theorem nil_uploadDir_crash_on_unresolved :
    (∀ op : Operation, (∀ t, op ≠ .uploadDir t) → openedUploadDir op = none) ∧
    (∀ (inc : Bool) (pfx : String) (req : ClientRequest) (resp : HTTPResponse),
      resp.status = 422 → resp.contentType = unresolvedContentType →
      negotiationStep none inc pfx req resp = .crashed) ∧
    (∀ (tree : FSNode) (inc : Bool) (pfx : String) (req : ClientRequest) (resp : HTTPResponse),
      negotiationStep (some tree) inc pfx req resp ≠ .crashed) := by
  refine ⟨?_, ?_, ?_⟩
  · intro op h
    cases op
    case uploadDir t => exact absurd rfl (h t)
    all_goals rfl
  · intro inc pfx req resp h1 h2
    unfold negotiationStep
    rw [if_pos ⟨h1, h2⟩]
  · intro tree inc pfx req resp
    unfold negotiationStep
    split
    · simp
    · split <;> simp

/-- Witness for C10: the path-scoped delete's nil handle plus a 422 unresolved
response produce the crash. -/
theorem nil_uploadDir_crash_on_unresolved_witness :
    negotiationStep none false "" demoReq demo422 = .crashed :=
  nil_uploadDir_crash_on_unresolved.2.1 false "" demoReq demo422 rfl rfl

/-! ## Claim C3: a 422 round replaces the set wholesale and resubmits -/

/--
Claim C3: on a 422 response with content type
application/vnd.git-pages.unresolved, the client sets the must-embed set to
exactly the newline-delimited hash list of the response body (the new body is
built from scanLines of this response alone — no union with any previous
set), rebuilds the archive by a fresh from-scratch walk of the tree with that
set, and resubmits the same logical request: same method, URL and headers,
new body.
-/
theorem renegotiation_replaces_set_and_resubmits (tree : FSNode) (inc : Bool) (pfx : String)
    (req : ClientRequest) (resp : HTTPResponse)
    (h422 : resp.status = 422) (hct : resp.contentType = unresolvedContentType) :
    negotiationStep (some tree) inc pfx req resp =
      .resubmit { method := req.method, url := req.url, headers := req.headers,
                  body := .stream (streamArchiveFS inc tree pfx (scanLines resp.body)) } ∧
    streamArchiveFS inc tree pfx (scanLines resp.body) =
      streamArchive inc (scanLines resp.body) pfx (walkNode "." tree) := by
  constructor
  · unfold negotiationStep
    rw [if_pos ⟨h422, hct⟩]
  · rfl

/-- Witness for C3 at a concrete tree, request and 422 response. -/
theorem renegotiation_replaces_set_and_resubmits_witness :
    negotiationStep (some demoRoot) true "" demoReq demo422 =
      .resubmit { method := demoReq.method, url := demoReq.url, headers := demoReq.headers,
                  body := .stream (streamArchiveFS true demoRoot "" (scanLines demo422.body)) } ∧
    streamArchiveFS true demoRoot "" (scanLines demo422.body) =
      streamArchive true (scanLines demo422.body) "" (walkNode "." demoRoot) :=
  renegotiation_replaces_set_and_resubmits demoRoot true "" demoReq demo422 rfl rfl

/-! ## Claim C4: response classification in the negotiation loop -/

/--
Counterexample to C4 as stated: for an update operation that did not open an
upload directory (here the path-scoped delete), a response with status 422
and the unresolved content type does not make the loop continue with another
round — the client crashes on the nil upload-directory handle — so the
claimed classification does not hold for *every* update operation.
-/
theorem negotiation_422_crash_counterexample :
    demo422.status = 422 ∧ demo422.contentType = unresolvedContentType ∧
    isResubmit (negotiationStep (openedUploadDir (.deletePath "blog/old-post")) false
      (pathPrefixOf "blog/old-post") demoReq demo422) = false ∧
    negotiationLoop (openedUploadDir (.deletePath "blog/old-post")) false
      (pathPrefixOf "blog/old-post") demoReq [demo422] = .crashed :=
  ⟨rfl, rfl, rfl, rfl⟩

/--
Claim C4 (amended): for update operations that opened an upload directory,
the loop terminates with success exactly on a 200 response (surfacing the
Update-Result header and the body), continues with another round exactly on
422 plus the unresolved content type, and terminates with failure on any
other status, surfacing the body as diagnostics; no bound is imposed on the
number of 422 rounds.  (Operations without an upload directory instead crash
on such a 422 response — see the counterexample and claim C10.)
-/
theorem negotiation_loop_classification (tree : FSNode) (inc : Bool) (pfx : String)
    (req : ClientRequest) (resp : HTTPResponse) :
    (resp.status = 200 →
      negotiationStep (some tree) inc pfx req resp = .accepted resp.updateResult resp.body) ∧
    (resp.status = 422 → resp.contentType = unresolvedContentType →
      isResubmit (negotiationStep (some tree) inc pfx req resp) = true) ∧
    (resp.status ≠ 200 → ¬(resp.status = 422 ∧ resp.contentType = unresolvedContentType) →
      negotiationStep (some tree) inc pfx req resp = .rejected resp.body) ∧
    (∀ (n : Nat) (req2 : ClientRequest),
      negotiationLoop (some tree) inc pfx req2 (List.replicate n demo422 ++ [demoOK]) =
        .accepted demoOK.updateResult demoOK.body) := by
  have hstepOK : ∀ r2 : ClientRequest, negotiationStep (some tree) inc pfx r2 demoOK =
      .accepted demoOK.updateResult demoOK.body := by
    intro r2
    unfold negotiationStep
    rw [if_neg (by decide), if_pos (show demoOK.status = 200 from rfl)]
  have hstep422 : ∀ r2 : ClientRequest, negotiationStep (some tree) inc pfx r2 demo422 =
      .resubmit { r2 with
        body := .stream (streamArchiveFS inc tree pfx (scanLines demo422.body)) } := by
    intro r2
    unfold negotiationStep
    rw [if_pos (by exact ⟨rfl, rfl⟩)]
  refine ⟨?_, ?_, ?_, ?_⟩
  · intro h
    unfold negotiationStep
    rw [if_neg (by rintro ⟨h1, -⟩; rw [h] at h1; exact absurd h1 (by decide)), if_pos h]
  · intro h1 h2
    unfold negotiationStep
    rw [if_pos ⟨h1, h2⟩]
    rfl
  · intro h1 h2
    unfold negotiationStep
    rw [if_neg h2, if_neg h1]
  · intro n
    induction n with
    | zero =>
      intro req2
      rw [List.replicate, List.nil_append, negotiationLoop, hstepOK]
    | succ m ih =>
      intro req2
      rw [List.replicate_succ, List.cons_append, negotiationLoop, hstep422]
      exact ih _

/-- Witness for the amended C4: a success round and a three-round negotiation
at concrete inputs. -/
theorem negotiation_loop_classification_witness :
    negotiationStep (some demoRoot) false "" demoReq demoOK =
      .accepted demoOK.updateResult demoOK.body ∧
    negotiationLoop (some demoRoot) false "" demoReq
      (List.replicate 3 demo422 ++ [demoOK]) = .accepted demoOK.updateResult demoOK.body :=
  ⟨(negotiation_loop_classification demoRoot false "" demoReq demoOK).1 rfl,
   (negotiation_loop_classification demoRoot false "" demoReq demoOK).2.2.2 3 demoReq⟩

/-! ## Claim C1: the elision invariant for regular files -/

/--
Claim C1: a regular file entry is emitted as a Placeholder — a symlink-typed
entry whose link target is "/git/blobs/" ++ hash with declared size zero and
no body — if and only if incremental mode is on, the byte length strictly
exceeds 256, and the content hash is not in the current must-embed set; in
every other case it is emitted as a regular entry embedding the full bytes
with the exact length declared.
-/
theorem regular_file_elision_iff (inc : Bool) (req : List String) (pfx : String)
    (e : WalkEntry) (data : Bytes) (hk : e.kind = .regular) (hc : e.content = .ok data)
    (hn : e.name ≠ ".") :
    encodeEntry inc req pfx e =
      .ok (some (if inc = true ∧ 256 < data.length ∧ gitBlobSHA256 data ∉ req
        then ⟨⟨.symlink, pfx ++ e.name, "/git/blobs/" ++ gitBlobSHA256 data, 0⟩, []⟩
        else ⟨⟨.reg, pfx ++ e.name, "", data.length⟩, data⟩)) := by
  obtain ⟨nm, kd, ct, lt⟩ := e
  simp only at hk hc hn ⊢
  subst hk hc
  cases hi : inc <;> by_cases hl : 256 < data.length <;>
    by_cases hr : gitBlobSHA256 data ∈ req <;>
      simp [encodeEntry, hn, hl, hr, incrementalSizeThreshold]

/-- Witness for C1: a 300-byte file in incremental mode with an empty
must-embed set is emitted as a Placeholder. -/
theorem regular_file_elision_iff_witness :
    encodeEntry true [] "" demoEntry =
      .ok (some (if true = true ∧ 256 < demoBytes.length ∧
          gitBlobSHA256 demoBytes ∉ ([] : List String)
        then ⟨⟨.symlink, "" ++ demoEntry.name, "/git/blobs/" ++ gitBlobSHA256 demoBytes, 0⟩, []⟩
        else ⟨⟨.reg, "" ++ demoEntry.name, "", demoBytes.length⟩, demoBytes⟩)) :=
  regular_file_elision_iff true [] "" demoEntry demoBytes rfl rfl (by decide)

/-! ## Claim C6: archive entry naming -/

/--
Claim C6: the archive entry name is the path prefix (normalized to end in a
slash or be empty) prepended to the entry's relative path, with a trailing
slash appended for directory entries; the synthetic root entry (path ".") is
skipped exactly when the prefix is empty and otherwise emitted as the prefix
directory itself — its name being the prefix with the directory rule's
trailing slash appended.
-/
theorem archive_entry_naming (inc : Bool) (req : List String) (pfx : String) (e : WalkEntry) :
    (e.name = "." → pfx = "" → encodeEntry inc req pfx e = .ok none) ∧
    (e.name = "." → e.kind = .dir → pfx ≠ "" →
      encodeEntry inc req pfx e = .ok (some ⟨⟨.dir, pfx ++ "/", "", 0⟩, []⟩)) ∧
    (∀ t : TarEntry, e.name ≠ "." → encodeEntry inc req pfx e = .ok (some t) →
      t.header.name = pfx ++ (e.name ++ (if e.kind = .dir then "/" else ""))) := by
  refine ⟨?_, ?_, ?_⟩
  · intro h1 h2
    unfold encodeEntry
    rw [if_pos ⟨h2, h1⟩]
  · intro h1 hk h2
    obtain ⟨nm, kd, ct, lt⟩ := e
    simp only at h1 hk
    subst h1 hk
    simp [encodeEntry, h2]
  · intro t hn hok
    obtain ⟨nm, kd, ct, lt⟩ := e
    simp only at hn ⊢
    cases kd with
    | dir =>
      simp [encodeEntry, hn] at hok
      rw [← hok]
      simp [String.append_assoc]
    | regular =>
      cases ct with
      | error m => simp [encodeEntry, hn] at hok
      | ok data =>
        simp [encodeEntry, hn] at hok
        split at hok
        · split at hok <;>
            · simp only [Except.ok.injEq, Option.some.injEq] at hok
              rw [← hok]
              simp [str_append_empty]
        · simp only [Except.ok.injEq, Option.some.injEq] at hok
          rw [← hok]
          simp [str_append_empty]
    | symlink =>
      cases lt with
      | error m => simp [encodeEntry, hn] at hok
      | ok tgt =>
        simp [encodeEntry, hn] at hok
        rw [← hok]
        simp [str_append_empty]
    | other => simp [encodeEntry, hn] at hok

/-- Witness for C6: the synthetic root under prefix "site/", a skipped root
under the empty prefix, and a regular file under a prefix. -/
theorem archive_entry_naming_witness :
    encodeEntry false [] "" ⟨".", .dir, .ok [], .ok ""⟩ = .ok none ∧
    encodeEntry false [] "site/" ⟨".", .dir, .ok [], .ok ""⟩ =
      .ok (some ⟨⟨.dir, "site/" ++ "/", "", 0⟩, []⟩) ∧
    (⟨⟨.reg, "site/a.txt", "", 0⟩, []⟩ : TarEntry).header.name =
      "site/" ++ ("a.txt" ++ (if (FSKind.regular = FSKind.dir) then "/" else "")) :=
  ⟨(archive_entry_naming false [] "" ⟨".", .dir, .ok [], .ok ""⟩).1 rfl rfl,
   (archive_entry_naming false [] "site/" ⟨".", .dir, .ok [], .ok ""⟩).2.1 rfl rfl (by decide),
   (archive_entry_naming false [] "site/" ⟨"a.txt", .regular, .ok [], .ok ""⟩).2.2
     ⟨⟨.reg, "site/a.txt", "", 0⟩, []⟩ (by decide) rfl⟩

/-! ## Claim C8: unsupported kinds and error propagation -/

theorem archiveEntries_error_of_mem (inc : Bool) (req : List String) (pfx : String)
    (items : List WalkItem) (e : WalkEntry) (msg : String)
    (hm : WalkItem.entry e ∈ items) (he : encodeEntry inc req pfx e = .error msg) :
    ∃ m, archiveEntries inc req pfx items = .error m := by
  induction items with
  | nil => cases hm
  | cons it rest ih =>
    cases it with
    | failure m2 => exact ⟨m2, rfl⟩
    | entry e2 =>
      rcases List.mem_cons.mp hm with h | h
      · have he2 : encodeEntry inc req pfx e2 = .error msg := by
          injection h with h2
          rw [← h2]
          exact he
        exact ⟨msg, by simp [archiveEntries, he2]⟩
      · obtain ⟨m, hrest⟩ := ih h
        cases henc : encodeEntry inc req pfx e2 with
        | error m3 => exact ⟨m3, by simp [archiveEntries, henc]⟩
        | ok oe => exact ⟨m, by simp [archiveEntries, henc, hrest]⟩

/--
Claim C8: a walk entry that is neither a regular file, a directory, nor a
symlink makes the encoder fail with the descriptive error
"tar: cannot add non-regular file" rather than being skipped, and any walk
containing such an entry fails as a whole; a content-read failure likewise
fails the walk; a walk error aborts with that error; and every error of the
archive construction becomes the terminal error of the piped stream, never
dropped.
-/
theorem unsupported_kinds_and_errors_surface (inc : Bool) (req : List String) (pfx : String) :
    (∀ e : WalkEntry, e.kind = .other → e.name ≠ "." →
      encodeEntry inc req pfx e = .error "tar: cannot add non-regular file") ∧
    (∀ (items : List WalkItem) (e : WalkEntry), WalkItem.entry e ∈ items → e.kind = .other →
      e.name ≠ "." → ∃ m, archiveEntries inc req pfx items = .error m) ∧
    (∀ (items : List WalkItem) (e : WalkEntry) (msg : String), WalkItem.entry e ∈ items →
      e.kind = .regular → e.content = .error msg → e.name ≠ "." →
      ∃ m, archiveEntries inc req pfx items = .error m) ∧
    (∀ (msg : String) (rest : List WalkItem),
      archiveEntries inc req pfx (.failure msg :: rest) = .error msg) ∧
    (∀ (items : List WalkItem) (msg : String), archiveEntries inc req pfx items = .error msg →
      streamArchive inc req pfx items = .terminalError msg) := by
  have hother : ∀ e : WalkEntry, e.kind = .other → e.name ≠ "." →
      encodeEntry inc req pfx e = .error "tar: cannot add non-regular file" := by
    intro e hk hn
    obtain ⟨nm, kd, ct, lt⟩ := e
    simp only at hk hn
    subst hk
    simp [encodeEntry, hn]
  have hread : ∀ (e : WalkEntry) (msg : String), e.kind = .regular → e.content = .error msg →
      e.name ≠ "." → encodeEntry inc req pfx e = .error msg := by
    intro e msg hk hc hn
    obtain ⟨nm, kd, ct, lt⟩ := e
    simp only at hk hc hn
    subst hk hc
    simp [encodeEntry, hn]
  refine ⟨hother, ?_, ?_, ?_, ?_⟩
  · intro items e hm hk hn
    exact archiveEntries_error_of_mem inc req pfx items e _ hm (hother e hk hn)
  · intro items e msg hm hk hc hn
    exact archiveEntries_error_of_mem inc req pfx items e msg hm (hread e msg hk hc hn)
  · intro msg rest
    rfl
  · intro items msg h
    unfold streamArchive
    rw [h]

/-- Witness for C8: a device entry, an unreadable file and a walk error each
poison a concrete walk, and the stream surfaces a concrete terminal error. -/
theorem unsupported_kinds_and_errors_surface_witness :
    (∃ m, archiveEntries false [] "" [.entry deviceEntry] = .error m) ∧
    (∃ m, archiveEntries false [] "" [.entry unreadableEntry] = .error m) ∧
    archiveEntries false [] "" [.failure "walk failed"] = .error "walk failed" ∧
    streamArchive false [] "" [.failure "walk failed"] = .terminalError "walk failed" := by
  refine ⟨?_, ?_, ?_, ?_⟩
  · exact (unsupported_kinds_and_errors_surface false [] "").2.1 [.entry deviceEntry]
      deviceEntry (List.mem_singleton.mpr rfl) rfl (by decide)
  · exact (unsupported_kinds_and_errors_surface false [] "").2.2.1 [.entry unreadableEntry]
      unreadableEntry "permission denied" (List.mem_singleton.mpr rfl) rfl rfl (by decide)
  · exact (unsupported_kinds_and_errors_surface false [] "").2.2.2.1 "walk failed" []
  · exact (unsupported_kinds_and_errors_surface false [] "").2.2.2.2 [.failure "walk failed"]
      "walk failed" rfl

/-! ## Claim C5: round-trip of encoding and decoding -/

theorem childPath_ne_dot (p n : String) (hn : n ≠ ".") : childPath p n ≠ "." := by
  unfold childPath
  split
  · exact hn
  · intro h
    have hd := congrArg String.data h
    rw [String.data_append, String.data_append] at hd
    have hlen := congrArg List.length hd
    rw [List.length_append, List.length_append] at hlen
    have h1 : "/".data.length = 1 := by decide
    have h2 : ".".data.length = 1 := by decide
    rw [h1, h2] at hlen
    have hp : p.data = [] := List.length_eq_zero.mp (by omega)
    have hn2 : n.data = [] := List.length_eq_zero.mp (by omega)
    rw [hp, hn2] at hd
    simp only [List.nil_append, List.append_nil] at hd
    exact absurd hd (by decide)

theorem stripSlash_append_slash (p : String) : stripSlash (p ++ "/") = p := by
  unfold stripSlash
  have hd : (p ++ "/").data = p.data ++ ['/'] := by
    rw [String.data_append]
  rw [hd, List.getLast?_concat, if_pos rfl, List.dropLast_concat]

theorem wfEntries_cons (n : String) (t : FSNode) (rest : FSEntries)
    (h : wfEntries (.cons n t rest) = true) :
    n ≠ "." ∧ wfNode t = true ∧ wfEntries rest = true := by
  simp only [wfEntries, Bool.and_eq_true, Bool.not_eq_true', beq_eq_false_iff_ne] at h
  exact ⟨h.1.1, h.1.2, h.2⟩

theorem archiveEntries_append (inc : Bool) (req : List String) (pfx : String)
    (l1 l2 : List WalkItem) :
    archiveEntries inc req pfx (l1 ++ l2) =
      match archiveEntries inc req pfx l1 with
      | .error msg => .error msg
      | .ok ts1 =>
        match archiveEntries inc req pfx l2 with
        | .error msg => .error msg
        | .ok ts2 => .ok (ts1 ++ ts2) := by
  induction l1 with
  | nil =>
    cases h2 : archiveEntries inc req pfx l2 with
    | error msg => simp [archiveEntries, h2]
    | ok ts => simp [archiveEntries, h2]
  | cons it rest ih =>
    cases it with
    | failure msg => rfl
    | entry e =>
      rw [List.cons_append]
      cases he : encodeEntry inc req pfx e with
      | error msg => simp [archiveEntries, he]
      | ok oe =>
        cases hr : archiveEntries inc req pfx rest with
        | error msg => cases oe <;> simp [archiveEntries, he, ih, hr]
        | ok ts1 =>
          cases h2 : archiveEntries inc req pfx l2 with
          | error msg => cases oe <;> simp [archiveEntries, he, ih, hr, h2]
          | ok ts2 => cases oe <;> simp [archiveEntries, he, ih, hr, h2]

theorem encodeEntry_file (p : String) (c : Bytes) (hp : p ≠ ".") :
    encodeEntry false [] "" ⟨p, .regular, .ok c, .ok ""⟩ =
      .ok (some ⟨⟨.reg, p, "", c.length⟩, c⟩) := by
  simp [encodeEntry, hp, str_empty_append]

theorem encodeEntry_symlink (p tgt : String) (hp : p ≠ ".") :
    encodeEntry false [] "" ⟨p, .symlink, .ok [], .ok tgt⟩ =
      .ok (some ⟨⟨.symlink, p, tgt, 0⟩, []⟩) := by
  simp [encodeEntry, hp, str_empty_append]

theorem encodeEntry_dir (p : String) (hp : p ≠ ".") :
    encodeEntry false [] "" ⟨p, .dir, .ok [], .ok ""⟩ =
      .ok (some ⟨⟨.dir, p ++ "/", "", 0⟩, []⟩) := by
  simp [encodeEntry, hp, str_empty_append]

mutual
theorem roundTripNode (path : String) (t : FSNode) (hp : path ≠ ".") (hw : wfNode t = true) :
    ∃ ts, archiveEntries false [] "" (walkNode path t) = .ok ts ∧
      ts.map decodeTarEntry = listingNode path t := by
  cases t with
  | file c =>
    refine ⟨[⟨⟨.reg, path, "", c.length⟩, c⟩], ?_, ?_⟩
    · simp [walkNode, archiveEntries, encodeEntry_file path c hp]
    · simp [walkNode, listingNode, decodeTarEntry]
  | symlink tgt =>
    refine ⟨[⟨⟨.symlink, path, tgt, 0⟩, []⟩], ?_, ?_⟩
    · simp [walkNode, archiveEntries, encodeEntry_symlink path tgt hp]
    · simp [listingNode, decodeTarEntry]
  | dir es =>
    obtain ⟨ts, h1, h2⟩ := roundTripEntries path es (by simpa [wfNode] using hw)
    refine ⟨⟨⟨.dir, path ++ "/", "", 0⟩, []⟩ :: ts, ?_, ?_⟩
    · simp [walkNode, archiveEntries, encodeEntry_dir path hp, h1]
    · simp [listingNode, decodeTarEntry, h2, stripSlash_append_slash]

theorem roundTripEntries (path : String) (es : FSEntries) (hw : wfEntries es = true) :
    ∃ ts, archiveEntries false [] "" (walkEntries path es) = .ok ts ∧
      ts.map decodeTarEntry = listingEntries path es := by
  cases es with
  | nil => exact ⟨[], rfl, rfl⟩
  | cons n t rest =>
    obtain ⟨hn, hwt, hwr⟩ := wfEntries_cons n t rest hw
    obtain ⟨ts1, ha1, hd1⟩ := roundTripNode (childPath path n) t (childPath_ne_dot path n hn) hwt
    obtain ⟨ts2, ha2, hd2⟩ := roundTripEntries path rest hwr
    refine ⟨ts1 ++ ts2, ?_, ?_⟩
    · simp only [walkEntries]
      rw [archiveEntries_append, ha1, ha2]
    · simp [listingEntries, hd1, hd2]
end

/--
Claim C5: encoding a finite directory tree containing only regular files,
directories and symlinks with incremental mode off and an empty must-embed
set, then decoding the resulting archive, reproduces every file's exact
bytes, every directory and every symlink's target string at their walk paths,
in walk order, with no entry lost or duplicated (the decoded list equals the
tree's canonical listing; the synthetic root "." itself is skipped by design
under the empty prefix).
-/
theorem encode_decode_round_trip (es : FSEntries) (hw : wfEntries es = true) :
    ∃ ts, archiveFS false (.dir es) "" [] = .ok ts ∧
      ts.map decodeTarEntry = listingEntries "." es := by
  obtain ⟨ts, h1, h2⟩ := roundTripEntries "." es hw
  refine ⟨ts, ?_, h2⟩
  unfold archiveFS
  have hroot : encodeEntry false [] "" ⟨".", .dir, .ok [], .ok ""⟩ = .ok none := rfl
  simp [walkNode, archiveEntries, hroot, h1]

/-- Witness for C5 at a concrete two-level tree with a file, a directory and
a symlink. -/
theorem encode_decode_round_trip_witness :
    ∃ ts, archiveFS false (.dir demoTree) "" [] = .ok ts ∧
      ts.map decodeTarEntry = listingEntries "." demoTree :=
  encode_decode_round_trip demoTree (by simp [demoTree, wfEntries, wfNode])

/-! ## Claim C9: the raw whiteout buffer is one header block, no trailer -/

theorem fieldString_length (w : Nat) (bs : Bytes) : (fieldString w bs).length = w := by
  unfold fieldString
  rw [List.length_append, List.length_take, List.length_replicate]
  omega

theorem fieldOctal_length (w n : Nat) : (fieldOctal w n).length = w := by
  simp only [fieldOctal]
  exact fieldString_length w _

theorem makeWhiteoutBuffer_eq (p : String) :
    makeWhiteoutBuffer p = whiteoutPre p ++
      (fieldOctal 7 (tarChecksum (whiteoutPre p) whiteoutPost) ++ [32]) ++ whiteoutPost := rfl

/--
Claim C9: for every path (of at most 100 bytes, the USTAR name field width),
the whiteout encoder's buffer is exactly one 512-byte tar header block — the
byte at the typeflag offset 156 is 51 ('3', tar.TypeChar, character device),
the 12-byte size field at offset 124 declares zero, the name field holds the
given path NUL-padded — and no end-of-archive trailer (1024 zero bytes)
follows, because the tar writer is flushed but never closed.
-/
theorem makeWhiteoutBuffer_single_block (p : String) (hlen : (strBytes p).length ≤ 100) :
    (makeWhiteoutBuffer p).length = 512 ∧
    (makeWhiteoutBuffer p).take 100 =
      strBytes p ++ List.replicate (100 - (strBytes p).length) 0 ∧
    ((makeWhiteoutBuffer p).drop 156).take 1 = [51] ∧
    ((makeWhiteoutBuffer p).drop 124).take 12 = strBytes "00000000000" ++ [0] ∧
    ¬ tarTrailer <:+ makeWhiteoutBuffer p := by
  have hsh := makeWhiteoutBuffer_eq p
  have h5 : (strBytes "ustar").length = 5 := by decide
  have h00 : (strBytes "00").length = 2 := by decide
  have hempty : (strBytes "").length = 0 := by decide
  have hblocklen : (makeWhiteoutBuffer p).length = 512 := by
    rw [hsh]
    simp [whiteoutPre, whiteoutPost, List.length_append, fieldString_length,
      fieldOctal_length, h5, h00]
  refine ⟨hblocklen, ?_, ?_, ?_, ?_⟩
  · have hsp : makeWhiteoutBuffer p =
        fieldString 100 (strBytes p) ++
          (fieldOctal 8 0 ++ fieldOctal 8 0 ++ fieldOctal 8 0 ++ fieldOctal 12 0 ++
            fieldOctal 12 0 ++
            ((fieldOctal 7 (tarChecksum (whiteoutPre p) whiteoutPost) ++ [32]) ++
              whiteoutPost)) := by
      rw [hsh]
      simp [whiteoutPre, List.append_assoc]
    rw [hsp, List.take_left' (fieldString_length 100 (strBytes p))]
    unfold fieldString
    rw [List.take_of_length_le hlen]
  · have hsp : makeWhiteoutBuffer p =
        (fieldString 100 (strBytes p) ++ fieldOctal 8 0 ++ fieldOctal 8 0 ++ fieldOctal 8 0 ++
          fieldOctal 12 0 ++ fieldOctal 12 0 ++
          (fieldOctal 7 (tarChecksum (whiteoutPre p) whiteoutPost) ++ [32])) ++
        whiteoutPost := by
      rw [hsh]
      simp [whiteoutPre, List.append_assoc]
    have hfront : (fieldString 100 (strBytes p) ++ fieldOctal 8 0 ++ fieldOctal 8 0 ++
        fieldOctal 8 0 ++ fieldOctal 12 0 ++ fieldOctal 12 0 ++
        (fieldOctal 7 (tarChecksum (whiteoutPre p) whiteoutPost) ++ [32])).length = 156 := by
      simp [List.length_append, fieldString_length, fieldOctal_length]
    rw [hsp, List.drop_left' hfront]
    unfold whiteoutPost
    rfl
  · have hsp : makeWhiteoutBuffer p =
        (fieldString 100 (strBytes p) ++ fieldOctal 8 0 ++ fieldOctal 8 0 ++ fieldOctal 8 0) ++
        (fieldOctal 12 0 ++
          (fieldOctal 12 0 ++
            ((fieldOctal 7 (tarChecksum (whiteoutPre p) whiteoutPost) ++ [32]) ++
              whiteoutPost))) := by
      rw [hsh]
      simp [whiteoutPre, List.append_assoc]
    have hfront : (fieldString 100 (strBytes p) ++ fieldOctal 8 0 ++ fieldOctal 8 0 ++
        fieldOctal 8 0).length = 124 := by
      simp [List.length_append, fieldString_length, fieldOctal_length]
    rw [hsp, List.drop_left' hfront, List.take_left' (fieldOctal_length 12 0)]
    decide
  · intro hsuf
    have hle := List.IsSuffix.length_le hsuf
    have htl : tarTrailer.length = 1024 := by
      unfold tarTrailer
      rw [List.length_replicate]
    rw [hblocklen, htl] at hle
    omega

/-- Witness for C9 at the concrete whiteout path "blog/old-post/". -/
theorem makeWhiteoutBuffer_single_block_witness :
    (makeWhiteoutBuffer "blog/old-post/").length = 512 ∧
    (makeWhiteoutBuffer "blog/old-post/").take 100 =
      strBytes "blog/old-post/" ++
        List.replicate (100 - (strBytes "blog/old-post/").length) 0 ∧
    ((makeWhiteoutBuffer "blog/old-post/").drop 156).take 1 = [51] ∧
    ((makeWhiteoutBuffer "blog/old-post/").drop 124).take 12 =
      strBytes "00000000000" ++ [0] ∧
    ¬ tarTrailer <:+ makeWhiteoutBuffer "blog/old-post/" :=
  makeWhiteoutBuffer_single_block "blog/old-post/" (by decide)
